import Mathlib

/-!
Shallow embedding of the Go message-queue server (src/main.go).

Maps `map[string][]string` / `map[string][]chan string` are embedded as
functions into `Option (List _)`: `none` models an absent key, `some l`
a key present with slice `l` (Go can represent a present key with an
empty slice, so absence and emptiness are kept distinct).  A Go
`chan string` is identified by a numeric id; `chanBuf c` records the
sequence of writes attempted on channel `c`.  Go runtime panics
(indexing an empty slice, `make` with a negative length) are embedded
as `Option.none` results of the operation.
-/

namespace GoQueue

/-- Identity of a Go `chan string`. -/
abbrev Chan := Nat

/-- `store.data : map[string][]string` (src/main.go:157). -/
abbrev StoreData := String → Option (List String)

/-- `popSlice` (src/main.go:281-291): first element of a slice plus the rest. -/
def popSlice (s : List String) : String × List String :=
  match s with
  | [] => ("", [])
  | item :: rest => (item, rest)

/-- `store.push` (src/main.go:168-173): `s.data[key] = append(s.data[key], msg)`;
a missing key reads as the nil slice. -/
def push (d : StoreData) (key msg : String) : StoreData :=
  fun k => if k = key then some ((d key).getD [] ++ [msg]) else d k

/-- `store.pop` (src/main.go:176-199). -/
def pop (d : StoreData) (key : String) : (String × Bool) × StoreData :=
  match d key with
  | none => (("", false), d)
  | some values =>
    if values.length = 0 then (("", false), d)
    else
      let (v, newValues) := popSlice values
      if newValues.length = 0 then
        ((v, true), fun k => if k = key then none else d k)
      else
        ((v, true), fun k => if k = key then some newValues else d k)

/-- `channelPool` (src/main.go:202-205); `chanBuf c` is the list of writes
attempted on channel `c` (a Go channel of capacity 1). -/
structure CPool where
  pool : String → Option (List Chan)
  chanBuf : Chan → List String

/-- `channelPool.addToQueue` (src/main.go:214-219). -/
def addToQueue (p : CPool) (queueName : String) (ch : Chan) : CPool :=
  { p with pool := fun k =>
      if k = queueName then some ((p.pool queueName).getD [] ++ [ch]) else p.pool k }

/-- Removal of the first occurrence: the value the loop body of `removeItem`
(src/main.go:297-306) computes when it fires, and `s` itself when it does not. -/
def removeFirstOcc : List Chan → Chan → List Chan
  | [], _ => []
  | v :: rest, item => if v = item then rest else v :: removeFirstOcc rest item

/-- `removeItem` (src/main.go:294-309).  Its first statement is
`new := make([]chan string, len(s)-1)`, which panics for `len(s) = 0`
(negative length); that panic is embedded as `none`. -/
def removeItem (s : List Chan) (item : Chan) : Option (List Chan) :=
  if s.length = 0 then none
  else some (removeFirstOcc s item)

/-- `channelPool.removeFromQueue` (src/main.go:222-233); `none` propagates the
`removeItem` panic. -/
def removeFromQueue (p : CPool) (queueName : String) (ch : Chan) : Option CPool :=
  match removeItem ((p.pool queueName).getD []) ch with
  | none => none
  | some l =>
    if l.length = 0 then
      some { p with pool := fun k => if k = queueName then none else p.pool k }
    else
      some { p with pool := fun k => if k = queueName then some l else p.pool k }

/-- `channelPool.sendMessage` (src/main.go:236-246): if the key is present the
message is written to `handlers[0]` and `true` is returned; indexing an empty
slice would panic (`none`).  The delivered-to channel is NOT removed. -/
def sendMessage (p : CPool) (key msg : String) : Option (CPool × Bool) :=
  match p.pool key with
  | some handlers =>
    match handlers with
    | [] => none
    | h :: _ =>
      some ({ p with chanBuf := fun c =>
                if c = h then p.chanBuf c ++ [msg] else p.chanBuf c }, true)
  | none => some (p, false)

/-- Split at the first occurrence of `sep`: `some (before, after)` when `sep`
occurs, `none` otherwise.  Building block for `strings.SplitN`. -/
def splitFirst (sep : Char) : List Char → Option (List Char × List Char)
  | [] => none
  | c :: rest =>
    if c = sep then some ([], rest)
    else
      match splitFirst sep rest with
      | none => none
      | some (a, b) => some (c :: a, b)

/-- Go `strings.SplitN(s, sep, n)` for a single-character separator:
splits around the first `n-1` separators, remainder in the last piece;
`SplitN("", sep, n) = [""]` for `n > 0`. -/
def goSplitN (sep : Char) : Nat → List Char → List (List Char)
  | 0, _ => []
  | 1, s => [s]
  | n + 2, s =>
    match splitFirst sep s with
    | none => [s]
    | some (a, b) => a :: goSplitN sep (n + 1) b

/-- `getQueueName` (src/main.go:249-257) on the character list of `url.Path`:
`strings.SplitN(path, "/", 3)` must yield exactly 2 pieces, and the name is
piece 1 (the piece exists since the length is 2). -/
def getQueueNameL (path : List Char) : Option (List Char) :=
  let parts := goSplitN '/' 3 path
  if parts.length = 2 then some (parts.getD 1 []) else none

/-- `getQueueName` (src/main.go:249-257), on `String`. -/
def getQueueName (path : String) : Option String :=
  (getQueueNameL path.toList).map String.mk

/-- An inbound request URL as the handlers read it: the path, and the raw
values of the query parameters `v` and `timeout` (`""` when absent, as Go's
`Query().Get` reports them). -/
structure URL where
  path : String
  v : String
  timeout : String

/-- `getQueueMessage` (src/main.go:260-263): `return msg, msg != ""`. -/
def getQueueMessage (u : URL) : String × Bool :=
  (u.v, u.v != "")

/-- Value of a decimal digit character, `none` for a non-digit. -/
def decDigit (c : Char) : Option Nat :=
  if '0' ≤ c ∧ c ≤ '9' then some (c.toNat - '0'.toNat) else none

/-- Accumulating loop of decimal parsing. -/
def digitsLoop (acc : Nat) : List Char → Option Nat
  | [] => some acc
  | c :: cs =>
    match decDigit c with
    | none => none
    | some d => digitsLoop (acc * 10 + d) cs

/-- Decimal value of a non-empty all-digit string, `none` otherwise. -/
def digitsToNat : List Char → Option Nat
  | [] => none
  | l => digitsLoop 0 l

/-- Go `strconv.ParseInt(s, 10, 64)`: optional sign, non-empty digit run,
result within `[-2^63, 2^63 - 1]`; any error (empty, bad character, out of
range) is `none`. -/
def parseInt64 (s : List Char) : Option Int :=
  match s with
  | [] => none
  | c :: rest =>
    let (neg, digits) :=
      if c = '-' then (true, rest)
      else if c = '+' then (false, rest)
      else (false, c :: rest)
    match digitsToNat digits with
    | none => none
    | some n =>
      if neg then
        if n ≤ 2 ^ 63 then some (-(n : Int)) else none
      else
        if n ≤ 2 ^ 63 - 1 then some (n : Int) else none

/-- Wrap an integer into signed 64-bit range, as Go `int64` arithmetic does. -/
def wrap64 (x : Int) : Int :=
  (x + 2 ^ 63) % 2 ^ 64 - 2 ^ 63

/-- `getRequestTimeout` (src/main.go:266-278): the duration is
`time.Duration(t) * time.Second`, i.e. `t * 10^9` nanoseconds in wrapping
`int64` arithmetic. -/
def getRequestTimeout (timeout : String) : Int × Bool :=
  if timeout = "" then (0, false)
  else
    match parseInt64 timeout.toList with
    | none => (0, false)
    | some t => (wrap64 (t * 1000000000), true)

/-- `queueHandlerConfig` (src/main.go:60-63): the store's map and the pool. -/
structure Config where
  store : StoreData
  cpool : CPool

/-- Transport-level outcome of `putQueueHandler`. -/
inductive Resp where
  | badRequest
  | ok
  deriving DecidableEq

/-- Body of `putQueueHandler` after parsing (src/main.go:93-98): try hand-off
through the pool; only when nothing was sent, push into the store.  `none`
propagates a `sendMessage` panic. -/
def produce (c : Config) (name msg : String) : Option Config :=
  match sendMessage c.cpool name msg with
  | none => none
  | some (p, isSended) =>
    if isSended then some { c with cpool := p }
    else some { store := push c.store name msg, cpool := p }

/-- `putQueueHandler` (src/main.go:80-99). -/
def putQueueHandler (c : Config) (u : URL) : Option (Resp × Config) :=
  match getQueueName u.path with
  | none => some (Resp.badRequest, c)
  | some name =>
    let (msg, okMsg) := getQueueMessage u
    if okMsg = false then some (Resp.badRequest, c)
    else
      match produce c name msg with
      | none => none
      | some c2 => some (Resp.ok, c2)

/-- Outcome of `getQueueHandler` up to its suspension point: either a
response was written, or the goroutine registered waiter channel `ch` and
blocked in the `select`. -/
inductive GetStepResult where
  | badRequest
  | notFound
  | wrote (msg : String)
  | waiting (ch : Chan)
  deriving DecidableEq

/-- `getQueueHandler` (src/main.go:102-152) up to the `select`: parse the
name, read the timeout, pop the store; 404 when nothing found and no timeout;
write a found message immediately; otherwise register `freshCh` and block. -/
def getQueueHandlerStep (c : Config) (u : URL) (freshCh : Chan) :
    GetStepResult × Config :=
  match getQueueName u.path with
  | none => (GetStepResult.badRequest, c)
  | some name =>
    let hasTimeout := (getRequestTimeout u.timeout).2
    let ((msg, ok), d2) := pop c.store name
    let c2 : Config := { c with store := d2 }
    if ok = false ∧ hasTimeout = false then (GetStepResult.notFound, c2)
    else if ok then (GetStepResult.wrote msg, c2)
    else (GetStepResult.waiting freshCh,
          { c2 with cpool := addToQueue c2.cpool name freshCh })

/-- The no-wait consume path (src/main.go:112-123 with `hasTimeout = false`):
exactly a `pop` on the store; a missing message reads as `("", false)`. -/
def consumeNoWait (c : Config) (name : String) : (String × Bool) × Config :=
  ((pop c.store name).1, { c with store := (pop c.store name).2 })

/-- A sequence of produces into one queue name. -/
def produceAll (c : Config) (name : String) : List String → Option Config
  | [] => some c
  | m :: ms =>
    match produce c name m with
    | none => none
    | some c2 => produceAll c2 name ms

/-- A sequence of `n` no-wait consumes on one queue name, collecting results. -/
def consumeAll (c : Config) (name : String) : Nat → List (String × Bool) × Config
  | 0 => ([], c)
  | n + 1 =>
    let (r, c2) := consumeNoWait c name
    let (rs, c3) := consumeAll c2 name n
    (r :: rs, c3)

/-- Store invariant: no key maps to an empty slice (spec §3). -/
def storeInv (d : StoreData) : Prop :=
  ∀ k, d k ≠ some []

/-- Registry invariant: no key maps to an empty slice of channels (spec §3). -/
def poolInv (p : CPool) : Prop :=
  ∀ k, p.pool k ≠ some []

/-- `d name` holds exactly the messages `l`, with the key absent when `l` is
empty (the representation the store invariant forces). -/
def encodes (d : StoreData) (name : String) (l : List String) : Prop :=
  d name = if l = [] then none else some l

/-! Concrete states used by witnesses and counterexamples. -/

/-- The empty store map. -/
def D0 : StoreData := fun _ => none

/-- A store holding two messages under key `"a"`. -/
def D1 : StoreData := fun k => if k = "a" then some ["x", "y"] else none

/-- The empty channel pool. -/
def P0 : CPool := { pool := fun _ => none, chanBuf := fun _ => [] }

/-- A pool with one waiter, channel `7`, registered for queue `"q"`. -/
def P1 : CPool := { pool := fun k => if k = "q" then some [7] else none,
                    chanBuf := fun _ => [] }

/-- The freshly started configuration: both maps empty. -/
def C0 : Config := { store := D0, cpool := P0 }

/-- Configuration after `produce C0 "q" "m"`. -/
def C0m : Config := { store := push D0 "q" "m", cpool := P0 }

/-- A configuration whose pool has one waiter (channel `7`) for `"q"`. -/
def CW : Config := { store := D0, cpool := P1 }

/-- A configuration with one buffered message under `"jobs"`. -/
def CJ : Config := { store := fun k => if k = "jobs" then some ["t1"] else none,
                     cpool := P0 }

/-- C4: `pop` removes and returns the head with found=true when a non-empty
sequence exists (deleting the key when the sequence empties, touching no other
key); when the key is absent or its sequence is empty it reports
`("", false)` and leaves the store unchanged. -/
theorem pop_spec (d : StoreData) (name : String) :
    (∀ v rest, d name = some (v :: rest) →
        (pop d name).1 = (v, true) ∧
        (pop d name).2 name = (if rest = [] then none else some rest) ∧
        ∀ k, k ≠ name → (pop d name).2 k = d k) ∧
    (d name = none → pop d name = (("", false), d)) ∧
    (d name = some [] → pop d name = (("", false), d)) := by
  refine ⟨?_, ?_, ?_⟩
  · intro v rest h
    cases rest with
    | nil =>
      refine ⟨by simp [pop, h, popSlice], by simp [pop, h, popSlice], ?_⟩
      intro k hk
      simp [pop, h, popSlice, hk]
    | cons a t =>
      refine ⟨by simp [pop, h, popSlice], by simp [pop, h, popSlice], ?_⟩
      intro k hk
      simp [pop, h, popSlice, hk]
  · intro h
    simp [pop, h]
  · intro h
    simp [pop, h]

/-- Witness for `pop_spec` at a concrete two-element store. -/
theorem pop_spec_witness :
    D1 "a" = some ["x", "y"] ∧
    (pop D1 "a").1 = ("x", true) ∧
    (pop D1 "a").2 "a" = some ["y"] ∧
    (pop D1 "a").2 "b" = D1 "b" := by
  have h := (pop_spec D1 "a").1 "x" ["y"] rfl
  exact ⟨rfl, h.1, by simpa using h.2.1, h.2.2 "b" (by decide)⟩

/-- C3: deregistering a handle under a name that has no registry entry is NOT
a no-op: `removeItem` begins with `make([]chan string, len(s)-1)`, which for
the nil slice of an absent key panics with a negative length (embedded as
`none`). -/
theorem removeFromQueue_absent_name_fails :
    removeFromQueue P0 "q" 5 = none := rfl

/-- C2: `sendMessage` does not remove the delivered-to channel, so a second
produce on the same name before the waiter deregisters writes to the very
same handle again: starting from one registered waiter (channel `7`) for
`"q"`, two produces both deliver, and both writes land on channel `7`. -/
theorem produce_double_delivery :
    ∃ c1 c2 : Config,
      produce CW "q" "m1" = some c1 ∧
      c1.cpool.pool "q" = some [7] ∧
      c1.cpool.chanBuf 7 = ["m1"] ∧
      produce c1 "q" "m2" = some c2 ∧
      c2.cpool.chanBuf 7 = ["m1", "m2"] := by
  refine ⟨_, _, rfl, rfl, rfl, rfl, rfl⟩

/-- Signed 64-bit wrap is the identity inside the representable range. -/
theorem wrap64_eq_self (x : Int) (hlo : -(2 ^ 63) ≤ x) (hhi : x < 2 ^ 63) :
    wrap64 x = x := by
  unfold wrap64
  have h0 : 0 ≤ x + 2 ^ 63 := by linarith
  have h1 : x + 2 ^ 63 < 2 ^ 64 := by
    have h2 : (2 : Int) ^ 64 = 2 ^ 63 + 2 ^ 63 := by norm_num
    linarith
  rw [Int.emod_eq_of_lt h0 h1]
  ring

/-- C10 counterexample: `timeout=10000000000` parses as a 64-bit integer, but
`time.Duration(t) * time.Second` overflows `int64`, so the returned duration
is not `t` seconds (it is negative). -/
theorem getRequestTimeout_not_seconds :
    getRequestTimeout "10000000000" = (-8446744073709551616, true) ∧
    (-8446744073709551616 : Int) ≠ (10000000000 : Int) * 1000000000 := by
  exact ⟨by decide, by decide⟩

/-- C10 amended: whenever the timeout parameter parses as a 64-bit integer
`t` — zero and negative values included, with no sign or magnitude
validation — a wait is reported and the duration is `t * 10^9` nanoseconds
computed in wrapping `int64` arithmetic, which equals `t` seconds exactly
when `|t| ≤ 9223372036`. -/
theorem getRequestTimeout_spec (s : String) (t : Int)
    (h : parseInt64 s.toList = some t) :
    getRequestTimeout s = (wrap64 (t * 1000000000), true) ∧
    (-9223372036 ≤ t → t ≤ 9223372036 →
      getRequestTimeout s = (t * 1000000000, true)) := by
  have hs : ¬ s = "" := by
    intro he
    subst he
    exact Option.noConfusion h
  have h2 : parseInt64 s.data = some t := h
  have h1 : getRequestTimeout s = (wrap64 (t * 1000000000), true) := by
    simp [getRequestTimeout, hs, h2]
  refine ⟨h1, ?_⟩
  intro hlo hhi
  rw [h1, wrap64_eq_self]
  · have := mul_le_mul_of_nonneg_right hhi (by norm_num : (0 : Int) ≤ 1000000000)
    calc -(2 ^ 63 : Int) ≤ -9223372036 * 1000000000 := by norm_num
    _ ≤ t * 1000000000 := by
        exact mul_le_mul_of_nonneg_right hlo (by norm_num)
  · have := mul_le_mul_of_nonneg_right hhi (by norm_num : (0 : Int) ≤ 1000000000)
    calc t * 1000000000 ≤ 9223372036 * 1000000000 := this
    _ < 2 ^ 63 := by norm_num

/-- Witness for `getRequestTimeout_spec` at `timeout=-5`: a negative wait is
reported as requested and passed through as `-5` seconds. -/
theorem getRequestTimeout_spec_witness :
    parseInt64 "-5".toList = some (-5) ∧
    (getRequestTimeout "-5" = (wrap64 ((-5) * 1000000000), true) ∧
     (-9223372036 ≤ (-5 : Int) → (-5 : Int) ≤ 9223372036 →
       getRequestTimeout "-5" = ((-5) * 1000000000, true))) :=
  ⟨by decide, getRequestTimeout_spec "-5" (-5) (by decide)⟩

/-- When `sendMessage` reports nothing sent, the pool it returns is the input
pool (the `false` branch performs no mutation). -/
theorem sendMessage_not_sent (p : CPool) (name msg : String) (q : CPool)
    (h : sendMessage p name msg = some (q, false)) : q = p := by
  unfold sendMessage at h
  cases hp : p.pool name with
  | none =>
    rw [hp] at h
    simp at h
    exact h.symm
  | some handlers =>
    rw [hp] at h
    cases handlers with
    | nil => simp at h
    | cons a t => simp at h

/-- C5: `produce` first attempts hand-off; a delivered message never reaches
the store, an undelivered one is pushed, and no single message both changes
the store and is written to a waiter channel. -/
theorem produce_spec (c : Config) (name msg : String) (c2 : Config)
    (h : produce c name msg = some c2) :
    ((∃ p, sendMessage c.cpool name msg = some (p, true)) → c2.store = c.store) ∧
    (sendMessage c.cpool name msg = some (c.cpool, false) →
      c2.store = push c.store name msg ∧ c2.cpool = c.cpool) ∧
    (c2.store ≠ c.store → c2.cpool.chanBuf = c.cpool.chanBuf) := by
  unfold produce at h
  cases hs : sendMessage c.cpool name msg with
  | none => rw [hs] at h; simp at h
  | some pb =>
    obtain ⟨p, b⟩ := pb
    rw [hs] at h
    cases b with
    | true =>
      simp at h
      refine ⟨fun _ => ?_, fun h2 => ?_, fun hne => ?_⟩
      · rw [← h]
      · simp at h2
      · exact absurd (by rw [← h]) hne
    | false =>
      have hp : p = c.cpool := sendMessage_not_sent c.cpool name msg p hs
      subst hp
      simp at h
      refine ⟨fun h2 => ?_, fun _ => ?_, fun _ => ?_⟩
      · obtain ⟨q, hq⟩ := h2; simp at hq
      · exact ⟨by rw [← h], by rw [← h]⟩
      · rw [← h]

/-- Witness for `produce_spec`: producing into the empty configuration. -/
theorem produce_spec_witness :
    produce C0 "q" "m" = some C0m ∧
    (sendMessage C0.cpool "q" "m" = some (C0.cpool, false) →
      C0m.store = push C0.store "q" "m" ∧ C0m.cpool = C0.cpool) :=
  ⟨rfl, (produce_spec C0 "q" "m" C0m rfl).2.1⟩

/-- C6: under the registry invariant, `sendMessage` never panics, reports
delivered=true exactly when at least one waiter is registered for the name,
writes the message to the head (longest-waiting) handle in that case, and
returns the pool unchanged with delivered=false when no entry exists. -/
theorem sendMessage_spec (p : CPool) (name msg : String) (hp : poolInv p) :
    (∃ r, sendMessage p name msg = some r) ∧
    ((∃ q, sendMessage p name msg = some (q, true)) ↔
      ∃ l, p.pool name = some l ∧ l ≠ []) ∧
    (p.pool name = none → sendMessage p name msg = some (p, false)) ∧
    (∀ h rest, p.pool name = some (h :: rest) →
      sendMessage p name msg =
        some ({ p with chanBuf := fun c =>
                  if c = h then p.chanBuf c ++ [msg] else p.chanBuf c }, true)) := by
  cases hpn : p.pool name with
  | none =>
    refine ⟨⟨(p, false), by simp [sendMessage, hpn]⟩, ?_, ?_, ?_⟩
    · constructor
      · rintro ⟨q, hq⟩
        simp [sendMessage, hpn] at hq
      · rintro ⟨l, hl, _⟩
        exact Option.noConfusion hl
    · intro _
      simp [sendMessage, hpn]
    · intro h rest hcontra
      exact Option.noConfusion hcontra
  | some handlers =>
    cases handlers with
    | nil => exact absurd hpn (hp name)
    | cons h0 t =>
      refine ⟨⟨({ p with chanBuf := fun c =>
                    if c = h0 then p.chanBuf c ++ [msg] else p.chanBuf c }, true),
               by simp [sendMessage, hpn]⟩, ?_, ?_, ?_⟩
      · constructor
        · intro _
          exact ⟨h0 :: t, rfl, by simp⟩
        · intro _
          exact ⟨{ p with chanBuf := fun c =>
                     if c = h0 then p.chanBuf c ++ [msg] else p.chanBuf c },
                 by simp [sendMessage, hpn]⟩
      · intro hcontra
        exact Option.noConfusion hcontra
      · intro h rest heq
        injection heq with heq
        injection heq with h1 h2
        subst h1
        subst h2
        simp [sendMessage, hpn]

/-- The one-waiter pool `P1` satisfies the registry invariant. -/
theorem poolInv_P1 : poolInv P1 := by
  intro k h
  by_cases hk : k = "q" <;> simp [P1, hk] at h

/-- Witness for `sendMessage_spec` at the one-waiter pool. -/
theorem sendMessage_spec_witness :
    poolInv P1 ∧ (∃ r, sendMessage P1 "q" "m" = some r) :=
  ⟨poolInv_P1, (sendMessage_spec P1 "q" "m" poolInv_P1).1⟩

/-- C7: every store and registry operation preserves the invariant that a
present key has a non-empty backing sequence (panicking calls excepted, as
they return no state at all). -/
theorem ops_preserve_inv (d : StoreData) (p : CPool) (k m : String) (ch : Chan)
    (hd : storeInv d) (hp : poolInv p) :
    storeInv (push d k m) ∧
    storeInv (pop d k).2 ∧
    poolInv (addToQueue p k ch) ∧
    (∀ q, removeFromQueue p k ch = some q → poolInv q) ∧
    (∀ q b, sendMessage p k m = some (q, b) → poolInv q) := by
  refine ⟨?_, ?_, ?_, ?_, ?_⟩
  · intro k2
    by_cases hk : k2 = k
    · subst hk; simp [push]
    · simp [push, hk]; exact hd k2
  · cases hdk : d k with
    | none => simp [pop, hdk]; exact hd
    | some values =>
      cases values with
      | nil => simp [pop, hdk]; exact hd
      | cons v rest =>
        cases rest with
        | nil =>
          simp [pop, hdk, popSlice]
          intro k2
          by_cases hk : k2 = k
          · simp [hk]
          · simp [hk]; exact hd k2
        | cons a t =>
          simp [pop, hdk, popSlice]
          intro k2
          by_cases hk : k2 = k
          · simp [hk]
          · simp [hk]; exact hd k2
  · intro k2
    by_cases hk : k2 = k
    · subst hk; simp [addToQueue]
    · simp [addToQueue, hk]; exact hp k2
  · intro q hq
    unfold removeFromQueue at hq
    cases hri : removeItem ((p.pool k).getD []) ch with
    | none => rw [hri] at hq; simp at hq
    | some l =>
      rw [hri] at hq
      by_cases hl : l.length = 0
      · simp [hl] at hq
        intro k2
        rw [← hq]
        by_cases hk : k2 = k <;> simp [hk]
        exact hp k2
      · simp [hl] at hq
        intro k2
        rw [← hq]
        by_cases hk : k2 = k <;> simp [hk]
        · intro hcontra
          exact hl (by simp [hcontra])
        · exact hp k2
  · intro q b hq
    unfold sendMessage at hq
    cases hpk : p.pool k with
    | none =>
      rw [hpk] at hq; simp at hq
      rw [← hq.1]; exact hp
    | some handlers =>
      rw [hpk] at hq
      cases handlers with
      | nil => simp at hq
      | cons h0 t =>
        simp at hq
        intro k2
        rw [← hq.1]
        exact hp k2

/-- The empty store satisfies the invariant. -/
theorem storeInv_D0 : storeInv D0 := fun _ h => Option.noConfusion h

/-- The empty pool satisfies the invariant. -/
theorem poolInv_P0 : poolInv P0 := fun _ h => Option.noConfusion h

/-- Witness for `ops_preserve_inv` on the empty state. -/
theorem ops_preserve_inv_witness :
    storeInv D0 ∧ poolInv P0 ∧ storeInv (push D0 "q" "m") :=
  ⟨storeInv_D0, poolInv_P0,
   (ops_preserve_inv D0 P0 "q" "m" 3 storeInv_D0 poolInv_P0).1⟩

/-- C8: when a buffered message exists, `getQueueHandler` pops and writes it
immediately — whatever the timeout parameter says — and the waiter pool is
left untouched (no registration, no blocking). -/
theorem consume_buffered_first (c : Config) (u : URL) (fresh : Chan)
    (name : String) (hn : getQueueName u.path = some name)
    (hb : ((pop c.store name).1).2 = true) :
    getQueueHandlerStep c u fresh =
      (GetStepResult.wrote ((pop c.store name).1).1,
       { c with store := (pop c.store name).2 }) := by
  unfold getQueueHandlerStep
  rw [hn]
  rcases hpe : pop c.store name with ⟨⟨msg, ok⟩, d2⟩
  rw [hpe] at hb
  simp at hb
  subst hb
  simp [hpe]

/-- Witness for `consume_buffered_first`: a buffered `"t1"` under `"jobs"` is
returned at once although `timeout=5` was supplied. -/
theorem consume_buffered_first_witness :
    getQueueName "/jobs" = some "jobs" ∧
    ((pop CJ.store "jobs").1).2 = true ∧
    (getQueueHandlerStep CJ ⟨"/jobs", "", "5"⟩ 0).1 = GetStepResult.wrote "t1" ∧
    (getQueueHandlerStep CJ ⟨"/jobs", "", "5"⟩ 0).2.cpool = CJ.cpool := by
  have h := consume_buffered_first CJ ⟨"/jobs", "", "5"⟩ 0 "jobs"
    (by decide) (by decide)
  refine ⟨by decide, by decide, ?_, ?_⟩
  · rw [h]; decide
  · rw [h]

/-- `push` appends the new message to the encoded contents of its key. -/
theorem push_encodes (d : StoreData) (name m : String) (l : List String)
    (h : encodes d name l) : encodes (push d name m) name (l ++ [m]) := by
  unfold encodes at h ⊢
  unfold push
  simp only [if_pos rfl]
  rw [h]
  cases l with
  | nil => simp
  | cons a t => simp

/-- With no waiter registered for the name, `produce` is exactly a `push`. -/
theorem produce_no_waiter (c : Config) (name m : String)
    (hpool : c.cpool.pool name = none) :
    produce c name m = some { store := push c.store name m, cpool := c.cpool } := by
  unfold produce sendMessage
  rw [hpool]
  rfl

/-- Folding produces over a message list, with no waiter for the name,
appends the whole list to the encoded store contents and never touches the
pool. -/
theorem produceAll_encodes (name : String) :
    ∀ (ps : List String) (c : Config) (l : List String),
      c.cpool.pool name = none → encodes c.store name l →
      ∃ c2, produceAll c name ps = some c2 ∧ c2.cpool = c.cpool ∧
        encodes c2.store name (l ++ ps) := by
  intro ps
  induction ps with
  | nil =>
    intro c l _ h2
    exact ⟨c, rfl, rfl, by simpa using h2⟩
  | cons m ms ih =>
    intro c l h1 h2
    have hstep := produce_no_waiter c name m h1
    have h2p := push_encodes c.store name m l h2
    obtain ⟨c2, hall, hpool2, henc⟩ :=
      ih { store := push c.store name m, cpool := c.cpool } (l ++ [m]) h1 h2p
    refine ⟨c2, ?_, hpool2, ?_⟩
    · simp [produceAll, hstep, hall]
    · simpa [List.append_assoc] using henc

/-- `pop` on encoded contents `v :: rest` returns `(v, true)` and leaves
`rest` encoded. -/
theorem pop_encodes_cons (d : StoreData) (name v : String) (rest : List String)
    (h : encodes d name (v :: rest)) :
    (pop d name).1 = (v, true) ∧ encodes (pop d name).2 name rest := by
  have h2 : d name = some (v :: rest) := by simpa [encodes] using h
  cases rest with
  | nil =>
    constructor
    · simp [pop, h2, popSlice]
    · simp [pop, h2, popSlice, encodes]
  | cons a t =>
    constructor
    · simp [pop, h2, popSlice]
    · simp [pop, h2, popSlice, encodes]

/-- `pop` on encoded empty contents finds nothing and changes nothing. -/
theorem pop_encodes_nil (d : StoreData) (name : String)
    (h : encodes d name []) : pop d name = (("", false), d) := by
  have h2 : d name = none := by simpa [encodes] using h
  simp [pop, h2]

/-- Running as many no-wait consumes as there are encoded messages returns
them all, in order and each found, leaving the key empty. -/
theorem consumeAll_encodes (name : String) :
    ∀ (l : List String) (c : Config), encodes c.store name l →
      (consumeAll c name l.length).1 = l.map (fun m => (m, true)) ∧
      encodes (consumeAll c name l.length).2.store name [] := by
  intro l
  induction l with
  | nil =>
    intro c h
    exact ⟨rfl, by simpa [consumeAll] using h⟩
  | cons v rest ih =>
    intro c h
    have hc := pop_encodes_cons c.store name v rest h
    have henc2 : encodes (Config.mk (pop c.store name).2 c.cpool).store name rest :=
      hc.2
    obtain ⟨ih1, ih2⟩ := ih { store := (pop c.store name).2, cpool := c.cpool } henc2
    constructor
    · simp [consumeAll, consumeNoWait, hc.1, ih1]
    · simpa [consumeAll, consumeNoWait] using ih2

/-- C1: with no waiter registered for the name and nothing buffered under it,
`n` produces followed by `n` no-wait consumes return exactly the produced
messages, in FIFO order, each found, and an `(n+1)`-th consume finds
nothing. -/
theorem fifo_produce_consume (st : Config) (name : String) (ps : List String)
    (hpool : st.cpool.pool name = none) (hstore : st.store name = none) :
    ∃ st2, produceAll st name ps = some st2 ∧
      (consumeAll st2 name ps.length).1 = ps.map (fun m => (m, true)) ∧
      (consumeNoWait (consumeAll st2 name ps.length).2 name).1 = ("", false) := by
  have henc : encodes st.store name [] := by simpa [encodes] using hstore
  obtain ⟨st2, hall, _, henc2⟩ := produceAll_encodes name ps st [] hpool henc
  have henc2p : encodes st2.store name ps := by simpa using henc2
  obtain ⟨h1, h2⟩ := consumeAll_encodes name ps st2 henc2p
  refine ⟨st2, hall, h1, ?_⟩
  have h3 := pop_encodes_nil _ name h2
  simp [consumeNoWait, h3]

/-- Witness for `fifo_produce_consume`: two messages through queue `"q"` of
the empty configuration. -/
theorem fifo_produce_consume_witness :
    C0.cpool.pool "q" = none ∧ C0.store "q" = none ∧
    (∃ st2, produceAll C0 "q" ["m1", "m2"] = some st2 ∧
      (consumeAll st2 "q" (["m1", "m2"] : List String).length).1 =
        (["m1", "m2"] : List String).map (fun m => (m, true)) ∧
      (consumeNoWait (consumeAll st2 "q" (["m1", "m2"] : List String).length).2
          "q").1 = ("", false)) :=
  ⟨rfl, rfl, fifo_produce_consume C0 "q" ["m1", "m2"] rfl rfl⟩

theorem splitFirst_eq_none (sep : Char) :
    ∀ s : List Char, splitFirst sep s = none ↔ sep ∉ s := by
  intro s
  induction s with
  | nil => simp [splitFirst]
  | cons c rest ih =>
    simp only [splitFirst]
    by_cases hc : c = sep
    · subst hc
      simp
    · cases h : splitFirst sep rest with
      | none =>
        simp only [if_neg hc, h]
        simp [List.mem_cons]
        exact ⟨fun heq => hc heq.symm, ih.mp h⟩
      | some ab =>
        obtain ⟨a, b⟩ := ab
        have hin : sep ∈ rest := by
          by_contra hnotin
          rw [← ih] at hnotin
          rw [h] at hnotin
          exact Option.noConfusion hnotin
        simp [if_neg hc, h, List.mem_cons, hin]

theorem splitFirst_eq_some (sep : Char) :
    ∀ (s a b : List Char),
      splitFirst sep s = some (a, b) ↔ (s = a ++ sep :: b ∧ sep ∉ a) := by
  intro s
  induction s with
  | nil =>
    intro a b
    simp only [splitFirst]
    constructor
    · intro h; exact Option.noConfusion h
    · rintro ⟨h, -⟩
      exact absurd h (by cases a <;> simp)
  | cons c rest ih =>
    intro a b
    simp only [splitFirst]
    by_cases hc : c = sep
    · subst hc
      simp only [if_pos rfl]
      constructor
      · intro h
        injection h with h
        injection h with h1 h2
        subst h1; subst h2
        exact ⟨rfl, by simp⟩
      · rintro ⟨heq, hnotin⟩
        cases a with
        | nil =>
          simp at heq
          simp [heq]
        | cons a0 arest =>
          simp at heq
          have hn : ¬c = a0 ∧ c ∉ arest := by simpa using hnotin
          exact absurd heq.1 hn.1
    · simp only [if_neg hc]
      cases h : splitFirst sep rest with
      | none =>
        constructor
        · intro hcontra; exact Option.noConfusion hcontra
        · rintro ⟨heq, hnotin⟩
          cases a with
          | nil =>
            simp at heq
            exact absurd heq.1 hc
          | cons a0 arest =>
            simp at heq
            obtain ⟨-, heq2⟩ := heq
            have : splitFirst sep rest = some (arest, b) :=
              (ih arest b).mpr ⟨heq2, fun hmem => hnotin (List.mem_cons_of_mem _ hmem)⟩
            rw [h] at this
            exact Option.noConfusion this
      | some ab =>
        obtain ⟨a2, b2⟩ := ab
        have hrest := (ih a2 b2).mp h
        constructor
        · intro heq
          injection heq with heq
          injection heq with h1 h2
          subst h1; subst h2
          refine ⟨by simp [hrest.1], ?_⟩
          simp [List.mem_cons]
          exact ⟨fun hcc => hc hcc.symm, hrest.2⟩
        · rintro ⟨heq, hnotin⟩
          cases a with
          | nil =>
            simp at heq
            exact absurd heq.1 hc
          | cons a0 arest =>
            simp at heq
            obtain ⟨ha0, heq2⟩ := heq
            subst ha0
            have : splitFirst sep rest = some (arest, b) :=
              (ih arest b).mpr ⟨heq2, fun hmem => hnotin (List.mem_cons_of_mem _ hmem)⟩
            rw [h] at this
            injection this with this
            injection this with t1 t2
            subst t1; subst t2
            rfl

theorem getQueueNameL_some_iff (path name : List Char) :
    getQueueNameL path = some name ↔
      ∃ pre, path = pre ++ '/' :: name ∧ '/' ∉ pre ∧ '/' ∉ name := by
  unfold getQueueNameL
  cases h1 : splitFirst '/' path with
  | none =>
    have hg : goSplitN '/' 3 path = [path] := by simp [goSplitN, h1]
    rw [hg]
    simp
    rintro pre hpath hpre
    have hmem : '/' ∈ path := by
      rw [hpath]
      exact List.mem_append_right _ (List.mem_cons_self _ _)
    exact absurd hmem ((splitFirst_eq_none '/' path).mp h1)
  | some ab =>
    obtain ⟨a, b⟩ := ab
    obtain ⟨hpath1, hprea⟩ := (splitFirst_eq_some '/' path a b).mp h1
    cases h2 : splitFirst '/' b with
    | none =>
      have hg : goSplitN '/' 3 path = [a, b] := by simp [goSplitN, h1, h2]
      rw [hg]
      simp
      constructor
      · intro hb
        subst hb
        exact ⟨a, hpath1, hprea, (splitFirst_eq_none '/' b).mp h2⟩
      · rintro ⟨pre, hpath, hpre, hname⟩
        have hsp : splitFirst '/' path = some (pre, name) :=
          (splitFirst_eq_some '/' path pre name).mpr ⟨hpath, hpre⟩
        rw [h1] at hsp
        have h3 : a = pre ∧ b = name := by simpa using hsp
        exact h3.2
    | some ab2 =>
      obtain ⟨a2, b2⟩ := ab2
      have hg : goSplitN '/' 3 path = [a, a2, b2] := by simp [goSplitN, h1, h2]
      rw [hg]
      simp
      intro pre hpath hpre
      have hsp : splitFirst '/' path = some (pre, name) :=
        (splitFirst_eq_some '/' path pre name).mpr ⟨hpath, hpre⟩
      rw [h1] at hsp
      have h3 : a = pre ∧ b = name := by simpa using hsp
      obtain ⟨hb2, -⟩ := (splitFirst_eq_some '/' b a2 b2).mp h2
      rw [← h3.2, hb2]
      exact List.mem_append_right _ (List.mem_cons_self _ _)

/-- C9 counterexample: the path `"/"` carries an EMPTY queue name, yet it is
not rejected: `getQueueName` accepts it and a PUT on `"/"` reaches the core,
buffering the message under the empty name. -/
theorem empty_name_reaches_core :
    getQueueName "/" = some "" ∧
    ∃ c2, putQueueHandler C0 ⟨"/", "task", ""⟩ = some (Resp.ok, c2) ∧
      c2.store "" = some ["task"] := by
  refine ⟨by decide, ⟨{ store := push D0 "" "task", cpool := P0 }, rfl, by decide⟩⟩

/-- C9 amended: the queue name is the part of the path after its single `/`
(the name may be empty, and path `"/"` is accepted rather than rejected);
exactly the paths not of that shape — no `/`, or a second `/` anywhere,
including a trailing one — are rejected by both handlers before the core is
invoked, with the configuration untouched. -/
theorem getQueueName_amended :
    (∀ path name : List Char, getQueueNameL path = some name ↔
       ∃ pre, path = pre ++ '/' :: name ∧ '/' ∉ pre ∧ '/' ∉ name) ∧
    (∀ (c : Config) (u : URL) (fresh : Chan), getQueueName u.path = none →
       putQueueHandler c u = some (Resp.badRequest, c) ∧
       getQueueHandlerStep c u fresh = (GetStepResult.badRequest, c)) := by
  constructor
  · exact getQueueNameL_some_iff
  · intro c u fresh h
    constructor
    · unfold putQueueHandler
      rw [h]
    · unfold getQueueHandlerStep
      rw [h]

/-- Witness for `getQueueName_amended`: the empty path has no `/` and both
handlers reject it without touching the configuration. -/
theorem getQueueName_amended_witness :
    getQueueName "" = none ∧
    (putQueueHandler C0 ⟨"", "m", ""⟩ = some (Resp.badRequest, C0) ∧
     getQueueHandlerStep C0 ⟨"", "m", ""⟩ 0 = (GetStepResult.badRequest, C0)) :=
  ⟨by decide, getQueueName_amended.2 C0 ⟨"", "m", ""⟩ 0 (by decide)⟩

end GoQueue
